import Mathlib

/-!
Verification development for the pc-audio-mixer repository.

The host-side core is modelled shallowly:
* `round_to_2` / `to_percentages` embed `PotentiometerData::to_percentages`
  (src/gui/src-tauri/src/types.rs).  The source computes in `f32`; here the
  computation is carried out in exact rational arithmetic with
  round-half-away-from-zero (the semantics of `f32::round`).  On the whole
  `u16` input domain the `f32` evaluation incurs a relative error below
  `2^-23` while the argument of the final rounding step is never closer than
  `1/8190` to a tie, so the exact rational model and the `f32` code agree on
  every representable input.
* the serial line decoder models `serde_json::from_str::<PotentiometerData>`
  as used in `SerialManager::start_reading` (src/mixer-gui/src-tauri/src/serial.rs),
  specialised to this struct: an object with the three `u16` fields in any
  order, unknown fields ignored (serde default) with primitive values,
  JSON whitespace allowed, trailing input rejected.  String escape sequences
  and nested containers in ignored positions are outside the model's scope.
* the mapping store embeds `save_channel_mapping` / `clear_channel_mapping`
  (src/mixer-gui/src-tauri/src/lib.rs); the `ChannelMapping` record itself is
  declared in a file absent from the snapshot and is reconstructed from the
  specification and from its uses in lib.rs.
* the session reconciler embeds the polling task of `run`
  (src/gui/src-tauri/src/lib.rs), the device link embeds `SerialManager`
  (src/mixer-gui/src-tauri/src/serial.rs).
-/

/-- One decoded telemetry sample (`PotentiometerData`,
src/gui/src-tauri/src/types.rs; the `u16` fields become naturals, the decoder
enforces the `≤ 65535` bound). -/
structure PotentiometerData where
  pot1 : ℕ
  pot2 : ℕ
  pot3 : ℕ
deriving DecidableEq

/-- Round half away from zero: the semantics of Rust `f32::round`. -/
def roundHalfAway (x : ℚ) : ℤ := if 0 ≤ x then ⌊x + 1/2⌋ else -⌊-x + 1/2⌋

/-- Model of `val.round()` on `f32`, as a rational-valued function. -/
def fround (x : ℚ) : ℚ := (roundHalfAway x : ℚ)

/-- The `round_to_2` closure of `PotentiometerData::to_percentages`:
`percentage = (val / 4095.0) * 100.0; (percentage / 2.0).round() * 2.0`. -/
def round_to_2 (val : ℚ) : ℚ := fround (val / 4095 * 100 / 2) * 2

/-- `round_to_2` applied to a raw (`u16`) reading, matching `pot as f32`. -/
def toPercentage (raw : ℕ) : ℚ := round_to_2 (raw : ℚ)

/-- `PotentiometerData::to_percentages` (src/gui/src-tauri/src/types.rs). -/
def to_percentages (d : PotentiometerData) : ℚ × ℚ × ℚ :=
  (toPercentage d.pot1, toPercentage d.pot2, toPercentage d.pot3)

/-- The specification's `round_to_nearest_even_step(x, step=2)`: quantize to
the nearest multiple of 2 with round-half-away-from-zero ties. -/
def quantizeStep2 (x : ℚ) : ℚ := fround (x / 2) * 2

/-- The specification's raw-to-percent scaling `raw / full_scale * 100`
before quantization. -/
def specRawPercent (raw : ℕ) : ℚ := (raw : ℚ) / 4095 * 100

/-- Closed-form Nat evaluation of `toPercentage` (used to evaluate the
rational model on concrete inputs). -/
def natPercent (raw : ℕ) : ℕ := 2 * ((20 * raw + 819) / 1638)

/-! ## Telemetry codec: model of `serde_json::from_str::<PotentiometerData>`
on one extracted line (src/mixer-gui/src-tauri/src/serial.rs, `start_reading`). -/

/-- JSON insignificant whitespace. -/
def jsonWs (c : Char) : Bool := c == ' ' || c == '\t' || c == '\n' || c == '\r'

/-- Drop leading JSON whitespace. -/
def skipWs : List Char → List Char
  | [] => []
  | c :: cs => if jsonWs c then skipWs cs else c :: cs

/-- ASCII decimal digit test. -/
def isDigitChar (c : Char) : Bool := 48 ≤ c.toNat && c.toNat ≤ 57

/-- Numeric value of an ASCII digit. -/
def digitVal (c : Char) : ℕ := c.toNat - 48

/-- Decimal value of a digit string (most significant first). -/
def natOfDigits (ds : List Char) : ℕ := ds.foldl (fun a c => 10 * a + digitVal c) 0

/-- Whether the input continues with a fraction or exponent marker. -/
def numberContinues (rest : List Char) : Bool :=
  match rest with
  | r :: _ => r == '.' || r == 'e' || r == 'E'
  | [] => false

/-- Whether a digit run has a forbidden leading zero (JSON: `01` is not a
number). -/
def leadingZero : List Char → Bool
  | [] => false
  | d :: ds' => d == '0' && !ds'.isEmpty

/-- Parse a JSON number in a `u16` position: a digit run without leading
zeros, not continued by a fraction or exponent, with value at most 65535
(otherwise serde reports an error: float, negative, or out-of-range input). -/
def parseU16 (cs : List Char) : Option (ℕ × List Char) :=
  let ds := cs.takeWhile isDigitChar
  let rest := cs.dropWhile isDigitChar
  if ds.isEmpty then none
  else if leadingZero ds then none
  else if numberContinues rest then none
  else if natOfDigits ds ≤ 65535 then some (natOfDigits ds, rest)
  else none

/-- Read a key or string body up to the closing quote (escape sequences are
outside the model's scope and rejected). -/
def spanKey : List Char → Option (List Char × List Char)
  | [] => none
  | c :: rest =>
    if c == '"' then some ([], rest)
    else if c == '\\' then none
    else
      match spanKey rest with
      | some (k, r) => some (c :: k, r)
      | none => none

/-- Characters that may continue a JSON number token. -/
def numberChar (c : Char) : Bool :=
  isDigitChar c || c == '-' || c == '+' || c == '.' || c == 'e' || c == 'E'

/-- Skip the value of an unknown field (serde ignores unknown fields by
default); primitive values only in this model. -/
def skipValue (cs : List Char) : Option (List Char) :=
  match cs with
  | [] => none
  | c :: rest =>
    if c == '"' then
      match spanKey rest with
      | some (_, r) => some r
      | none => none
    else if isDigitChar c || c == '-' then some (cs.dropWhile numberChar)
    else if ("true".data).isPrefixOf cs then some (cs.drop 4)
    else if ("false".data).isPrefixOf cs then some (cs.drop 5)
    else if ("null".data).isPrefixOf cs then some (cs.drop 4)
    else none

/-- Parse one `"key": value` member, updating the three optional fields;
a duplicate of an already-seen field is an error (serde: duplicate field). -/
def parseMember (cs : List Char) (abc : Option ℕ × Option ℕ × Option ℕ) :
    Option ((Option ℕ × Option ℕ × Option ℕ) × List Char) :=
  match cs with
  | '"' :: rest =>
    match spanKey rest with
    | none => none
    | some (k, r1) =>
      match skipWs r1 with
      | ':' :: r3 =>
        let r4 := skipWs r3
        if k == "pot1".data then
          match parseU16 r4, abc.1 with
          | some (v, r5), none => some ((some v, abc.2.1, abc.2.2), r5)
          | _, _ => none
        else if k == "pot2".data then
          match parseU16 r4, abc.2.1 with
          | some (v, r5), none => some ((abc.1, some v, abc.2.2), r5)
          | _, _ => none
        else if k == "pot3".data then
          match parseU16 r4, abc.2.2 with
          | some (v, r5), none => some ((abc.1, abc.2.1, some v), r5)
          | _, _ => none
        else
          match skipValue r4 with
          | some r5 => some (abc, r5)
          | none => none
      | _ => none
  | _ => none

/-- Parse the members of the object until the closing brace (fuel-indexed;
the caller passes more fuel than there are input characters). -/
def parseMembers : ℕ → List Char → (Option ℕ × Option ℕ × Option ℕ) →
    Option ((Option ℕ × Option ℕ × Option ℕ) × List Char)
  | 0, _, _ => none
  | fuel+1, cs, abc =>
    match parseMember cs abc with
    | none => none
    | some (abc2, rest) =>
      match skipWs rest with
      | ',' :: r2 => parseMembers fuel (skipWs r2) abc2
      | '\x7d' :: r2 => some (abc2, r2)
      | _ => none

/-- Final acceptance step of the decoder: all three fields must be present
(all-or-nothing, no partial recovery) and only whitespace may remain. -/
def decodeTriple (res : Option ((Option ℕ × Option ℕ × Option ℕ) × List Char)) :
    Option PotentiometerData :=
  match res with
  | some ((some a, some b, some c), rest2) =>
    if skipWs rest2 = [] then some ⟨a, b, c⟩ else none
  | _ => none

/-- Decode one line: the model of
`serde_json::from_str::<PotentiometerData>(line)`.  `none` is serde's
`Err(_)`; the caller drops such lines. -/
def decodeLine (line : List Char) : Option PotentiometerData :=
  match skipWs line with
  | '\x7b' :: rest =>
    decodeTriple (parseMembers (line.length + 1) (skipWs rest) (none, none, none))
  | _ => none

/-- Split the accumulator into the complete lines (terminator removed, in
arrival order) and the unterminated leftover, as the `while let Some(pos) =
line_buffer.find('\n')` loop of `start_reading` does. -/
def splitLines : List Char → List (List Char) × List Char
  | [] => ([], [])
  | c :: r =>
    if c == '\n' then
      ([] :: (splitLines r).1, (splitLines r).2)
    else
      match splitLines r with
      | ([], rest) => ([], c :: rest)
      | (l :: ls, rest) => ((c :: l) :: ls, rest)

/-- Samples forwarded to the channel for a buffer: each complete line is
decoded, failures are dropped, the leftover stays buffered. -/
def extractSamples (buf : List Char) : List PotentiometerData × List Char :=
  ((splitLines buf).1.filterMap decodeLine, (splitLines buf).2)

/-- Little-endian digit expansion of a positive number. -/
def renderNatAux : ℕ → List Char
  | 0 => []
  | n+1 => Nat.digitChar ((n+1) % 10) :: renderNatAux ((n+1) / 10)
decreasing_by exact Nat.div_lt_self (Nat.succ_pos n) (by norm_num)

/-- Decimal rendering of a natural number, as the firmware's `writeln!`
format string produces it. -/
def renderNat (n : ℕ) : List Char := if n = 0 then ['0'] else (renderNatAux n).reverse

/-- The member list of the canonical wire line. -/
def renderMembersBody (a b c : ℕ) : List Char :=
  '"' :: 'p' :: 'o' :: 't' :: '1' :: '"' :: ':' ::
    (renderNat a ++ ',' :: '"' :: 'p' :: 'o' :: 't' :: '2' :: '"' :: ':' ::
      (renderNat b ++ ',' :: '"' :: 'p' :: 'o' :: 't' :: '3' :: '"' :: ':' ::
        (renderNat c ++ ['\x7d'])))

/-- The canonical wire line the firmware emits for readings `a`, `b`, `c`
(src/firmware/src/main_mcp3008.rs). -/
def renderLine (a b c : ℕ) : List Char := '\x7b' :: renderMembersBody a b c

/-! ## Mapping store and control router (src/mixer-gui/src-tauri/src/lib.rs). -/

/-- Modelled from the spec: `ChannelMapping` is declared in
src/mixer-gui/src-tauri/src/types.rs, which is absent from the snapshot; the
record is reconstructed from §3 of the specification and from its uses in
lib.rs (`channel_id`, `is_master`, `process_id`, `process_name`). -/
structure ChannelMapping where
  channel_id : ℕ
  is_master : Bool
  process_id : Option ℕ
  process_name : Option String
deriving DecidableEq

/-- A call issued to the audio backend by the router. -/
inductive BackendCall where
  | setMasterVolume (v : ℚ)
  | setAppVolume (pid : ℕ) (v : ℚ)
deriving DecidableEq

/-- Routing of one channel position (`idx` is the 0-based loop index; the
mapping lookup is `find(|m| m.channel_id == idx + 1)`). -/
def routeChannel (mappings : List ChannelMapping) (idx : ℕ) (v : ℚ) : List BackendCall :=
  match mappings.find? (fun m => m.channel_id == idx + 1) with
  | some m =>
    if m.is_master then [BackendCall.setMasterVolume v]
    else
      match m.process_id with
      | some pid => [BackendCall.setAppVolume pid v]
      | none => []
  | none => []

/-- The backend calls the router issues for one received sample, in order
(the `for (idx, pot_value) in pot_values.iter().enumerate()` loop of the
`connect_serial` router task). -/
def routerCalls (mappings : List ChannelMapping) (d : PotentiometerData) : List BackendCall :=
  routeChannel mappings 0 (to_percentages d).1 ++
  routeChannel mappings 1 (to_percentages d).2.1 ++
  routeChannel mappings 2 (to_percentages d).2.2

/-- Execute the router against a backend whose outcome (success flag) for
each call is `backend`; the source discards every outcome (`let _ = ...`). -/
def runRouter (backend : BackendCall → Bool) (mappings : List ChannelMapping)
    (d : PotentiometerData) : List (BackendCall × Bool) :=
  (routerCalls mappings d).map (fun call => (call, backend call))

/-- Process a stream of samples. -/
def runRouterAll (backend : BackendCall → Bool) (mappings : List ChannelMapping)
    (ds : List PotentiometerData) : List (BackendCall × Bool) :=
  (ds.map (runRouter backend mappings)).flatten

/-- In-memory effect of `save_channel_mapping`: `retain(channel_id !=)` then
`push` — remove-then-insert. -/
def setMapping (s : List ChannelMapping) (m : ChannelMapping) : List ChannelMapping :=
  s.filter (fun x => !(x.channel_id == m.channel_id)) ++ [m]

/-- In-memory effect of `clear_channel_mapping`. -/
def clearMapping (s : List ChannelMapping) (cid : ℕ) : List ChannelMapping :=
  s.filter (fun x => !(x.channel_id == cid))

/-- Well-formedness of one mapping (§3 invariant): a master mapping targets
no process. -/
def wfMapping (m : ChannelMapping) : Prop := m.is_master = true → m.process_id = none

/-- The mapping-store invariant: one mapping per channel id, all mappings
well-formed. -/
def storeInv (s : List ChannelMapping) : Prop :=
  (s.map (fun m => m.channel_id)).Nodup ∧ ∀ m ∈ s, wfMapping m

/-- The full `save_channel_mapping` command: mutate the table in place, then
persist the full resulting table via the configuration collaborator
(`config::save_channel_mappings`, whose verdict is `persist`); its failure is
surfaced as the command result while the table keeps the new mapping. -/
def save_channel_mapping (s : List ChannelMapping) (m : ChannelMapping)
    (persist : List ChannelMapping → Except String Unit) :
    List ChannelMapping × Except String Unit :=
  let mappings2 := setMapping s m
  (mappings2, persist mappings2)

/-! ## Device link (src/mixer-gui/src-tauri/src/serial.rs). -/

/-- Point-in-time connection snapshot (`ConnectionStatus`). -/
structure ConnectionStatus where
  connected : Bool
  port : Option String
  error : Option String
deriving DecidableEq

/-- The two lock-guarded fields of `SerialManager`: the open handle (modelled
by the name it was opened on) and the recorded port name. -/
structure SerialState where
  port : Option String
  port_name : Option String
deriving DecidableEq

/-- `serialport::SerialPortType`, restricted to what `find_pico_port` reads. -/
inductive PortType where
  | usb (product : Option String) (manufacturer : Option String)
  | other

/-- One discovered serial interface. -/
structure AvailablePort where
  port_name : String
  port_type : PortType

/-- ASCII lowercasing of a string, as `str::to_lowercase` for the ASCII
descriptors involved. -/
def lowerChars (s : String) : List Char := s.data.map Char.toLower

/-- Substring test (`str::contains`). -/
def containsSub (s pat : List Char) : Bool := s.tails.any (fun t => pat.isPrefixOf t)

/-- `SerialManager::find_pico_port`: first port whose USB descriptor matches
the device-identity heuristic, or whose name matches a USB-CDC pattern. -/
def find_pico_port (ports : List AvailablePort) : Option String :=
  ports.findSome? (fun p =>
    let lowname := lowerChars p.port_name
    let usbHit : Bool :=
      match p.port_type with
      | PortType.usb product manufacturer =>
        (match product with
         | some pr =>
           containsSub (lowerChars pr) ("pico".data) ||
             containsSub (lowerChars pr) ("rp2040".data)
         | none => false) ||
        (match manufacturer with
         | some mf => containsSub (lowerChars mf) ("raspberry".data)
         | none => false)
      | PortType.other => false
    if usbHit then some p.port_name
    else if containsSub lowname ("usbmodem".data) || containsSub lowname ("ttyacm".data) ||
        (containsSub lowname ("com".data) && decide (lowname.length ≤ 5)) then
      some p.port_name
    else none)

/-- `SerialManager::disconnect`: clear handle and recorded name. -/
def disconnectFn (_st : SerialState) : SerialState := ⟨none, none⟩

/-- `SerialManager::connect`: disconnect first, pick the named or discovered
port, try to open it (`openPort` is the environment's verdict with the OS
error cause), and report a `ConnectionStatus` — never an exception. -/
def connectFn (ports : List AvailablePort) (openPort : String → Except String Unit)
    (st : SerialState) (port_name : Option String) : SerialState × ConnectionStatus :=
  let st1 := disconnectFn st
  let port_to_use :=
    match port_name with
    | some p => some p
    | none => find_pico_port ports
  match port_to_use with
  | some pn =>
    match openPort pn with
    | Except.ok _ =>
      ({ port := some pn, port_name := some pn },
       { connected := true, port := some pn, error := none })
    | Except.error e =>
      (st1, { connected := false, port := none, error := some ("Failed to connect: " ++ e) })
  | none =>
    (st1, { connected := false, port := none, error := some "No Pico device found" })

/-- `SerialManager::get_status`: `connected` mirrors `is_connected()` (handle
present), the error field is always `None`. -/
def get_status (st : SerialState) : ConnectionStatus :=
  { connected := st.port.isSome, port := st.port_name, error := none }

/-- The `connect_serial` command (src/mixer-gui/src-tauri/src/lib.rs): run
`connect`, and spawn the reading machinery only when the status says
connected.  The third component records whether a reader was spawned. -/
def connect_serial (st : SerialState) (ports : List AvailablePort)
    (openPort : String → Except String Unit) (port : Option String) :
    SerialState × ConnectionStatus × Bool :=
  let r := connectFn ports openPort st port
  (r.1, r.2, r.2.connected)

/-- One command against the device link. -/
inductive LinkOp where
  | connectOp (port_name : Option String) (ports : List AvailablePort)
      (openPort : String → Except String Unit)
  | disconnectOp

/-- State transition of one link command. -/
def applyOp (st : SerialState) : LinkOp → SerialState
  | LinkOp.connectOp pn ports op => (connectFn ports op st pn).1
  | LinkOp.disconnectOp => disconnectFn st

/-! ## Session reconciler (src/gui/src-tauri/src/lib.rs, polling task). -/

/-- `AudioSession` (src/gui/src-tauri/src/types.rs); the `f32` volume is
modelled as an exact rational. -/
structure AudioSession where
  process_id : ℕ
  process_name : String
  display_name : String
  volume : ℚ
  is_muted : Bool
deriving DecidableEq

/-- One reconciler tick on the stored snapshot, given the backend's fetch
result: on success compare with `Vec` equality (`*last != current_sessions`
— element-wise, order-sensitive), replace the snapshot and emit the new list
when different; on failure log and keep the snapshot.  The second component
lists the emitted notifications. -/
def reconcilerTick (last : List AudioSession) (fetched : Except String (List AudioSession)) :
    List AudioSession × List (List AudioSession) :=
  match fetched with
  | Except.ok current => if last ≠ current then (current, [current]) else (last, [])
  | Except.error _ => (last, [])

/-! ## Theorems. -/

theorem round_to_2_eq_quantize (v : ℚ) : round_to_2 v = quantizeStep2 (v / 4095 * 100) := rfl

theorem roundHalfAway_eq_round {x : ℚ} (h : 0 ≤ x) : roundHalfAway x = round x := by
  rw [roundHalfAway, if_pos h, round_eq]

theorem roundHalfAway_intCast (m : ℤ) : roundHalfAway (m : ℚ) = m := by
  by_cases h : (0:ℚ) ≤ (m : ℚ)
  · rw [roundHalfAway_eq_round h, round_intCast]
  · have h1 : -(m:ℚ) = ((-m : ℤ) : ℚ) := by push_cast; ring
    rw [roundHalfAway, if_neg h, h1, ← round_eq, round_intCast, neg_neg]

theorem toPercentage_eq_natPercent (raw : ℕ) : toPercentage raw = (natPercent raw : ℚ) := by
  have hx : (0:ℚ) ≤ (raw : ℚ) / 4095 * 100 / 2 := by positivity
  have h1 : toPercentage raw = (roundHalfAway ((raw:ℚ)/4095*100/2) : ℚ) * 2 := rfl
  rw [h1, roundHalfAway_eq_round hx, round_eq]
  have h2 : (raw:ℚ)/4095*100/2 + 1/2 = ((20*raw + 819 : ℤ) : ℚ) / ((1638 : ℕ) : ℚ) := by
    push_cast
    field_simp
    ring
  rw [h2, Rat.floor_intCast_div_natCast]
  have h4 : (20*(raw:ℤ) + 819) / ((1638:ℕ):ℤ) = (((20*raw + 819) / 1638 : ℕ) : ℤ) := by
    exact_mod_cast (Int.natCast_div (20*raw + 819) 1638).symm
  rw [h4, Int.cast_natCast]
  unfold natPercent
  push_cast
  ring

theorem toPercentage_eval (raw k : ℕ) (h : natPercent raw = k) : toPercentage raw = (k : ℚ) := by
  rw [toPercentage_eq_natPercent, h]

theorem toPercentage_0 : toPercentage 0 = 0 := by
  simpa using toPercentage_eval 0 0 (by decide)

theorem toPercentage_4095 : toPercentage 4095 = 100 := by
  simpa using toPercentage_eval 4095 100 (by decide)

theorem toPercentage_4096 : toPercentage 4096 = 100 := by
  simpa using toPercentage_eval 4096 100 (by decide)

theorem round_to_2_cast4095 : round_to_2 ((4095 : ℕ) : ℚ) = 100 := toPercentage_4095

theorem specRawPercent_4095 : specRawPercent 4095 = 100 := by
  unfold specRawPercent
  norm_num

theorem abs_sub_two_mul (y : ℚ) (m : ℤ) : |y - 2 * (m : ℚ)| = 2 * |y/2 - (m : ℚ)| := by
  rw [show y - 2*(m:ℚ) = 2 * (y/2 - m) by ring, abs_mul]
  norm_num

theorem quantizeStep2_eq_round {x : ℚ} (h : 0 ≤ x) :
    quantizeStep2 x = 2 * (round (x/2) : ℚ) := by
  unfold quantizeStep2 fround
  rw [roundHalfAway_eq_round (div_nonneg h (by norm_num))]
  ring

theorem quantizeStep2_mul (x : ℚ) : ∃ k : ℤ, quantizeStep2 x = 2 * k :=
  ⟨roundHalfAway (x/2), by unfold quantizeStep2 fround; ring⟩

theorem quantizeStep2_int (m : ℤ) : quantizeStep2 (2 * (m : ℚ)) = 2 * m := by
  unfold quantizeStep2 fround
  rw [show (2*(m:ℚ))/2 = (m:ℚ) by ring, roundHalfAway_intCast]
  ring

theorem quantizeStep2_idem (x : ℚ) : quantizeStep2 (quantizeStep2 x) = quantizeStep2 x := by
  obtain ⟨k, hk⟩ := quantizeStep2_mul x
  rw [hk, quantizeStep2_int]

theorem quantizeStep2_nearest {x : ℚ} (h : 0 ≤ x) (k : ℤ) :
    |x - quantizeStep2 x| ≤ |x - 2 * k| := by
  rw [quantizeStep2_eq_round h, abs_sub_two_mul x (round (x/2)), abs_sub_two_mul x k]
  have := round_le (x/2) k
  linarith

theorem quantizeStep2_tie {x : ℚ} (h : 0 ≤ x) (k : ℤ)
    (heq : |x - 2 * k| = |x - quantizeStep2 x|) :
    quantizeStep2 x = 2 * k ∨ (2 * k : ℚ) < quantizeStep2 x := by
  rw [quantizeStep2_eq_round h] at heq ⊢
  set r := round (x/2) with hr
  by_cases hk : k = r
  · left; rw [hk]
  · right
    have h1 : |x/2 - (k:ℚ)| = |x/2 - (r:ℚ)| := by
      have ha := abs_sub_two_mul x k
      have hb := abs_sub_two_mul x r
      rw [ha, hb] at heq
      linarith
    have hhalf : |x/2 - (r:ℚ)| ≤ 1/2 := by rw [hr]; exact abs_sub_round (x/2)
    have hne : k - r ≠ 0 := sub_ne_zero.mpr hk
    have hge : (1:ℚ) ≤ |(k:ℚ) - (r:ℚ)| := by exact_mod_cast Int.one_le_abs hne
    have htri : |(k:ℚ) - (r:ℚ)| ≤ |x/2 - (k:ℚ)| + |x/2 - (r:ℚ)| := by
      calc |(k:ℚ) - (r:ℚ)| = |((k:ℚ) - x/2) + (x/2 - (r:ℚ))| := by congr 1; ring
        _ ≤ |(k:ℚ) - x/2| + |x/2 - (r:ℚ)| := abs_add _ _
        _ = |x/2 - (k:ℚ)| + |x/2 - (r:ℚ)| := by rw [abs_sub_comm]
    have heq2 : |x/2 - (r:ℚ)| = 1/2 := by linarith
    have hcase : x/2 - (r:ℚ) = 1/2 ∨ x/2 - (r:ℚ) = -(1/2) := (abs_eq (by norm_num)).mp heq2
    have hx2 : x/2 = (r:ℚ) - 1/2 := by
      rcases hcase with hc | hc
      · exfalso
        have hxe : x/2 = (r:ℚ) + 1/2 := by linarith
        have hru : round (x/2) = r + 1 := by
          rw [hxe, round_int_add, show round ((1:ℚ)/2) = 1 by rw [round_eq]; norm_num]
        rw [← hr] at hru
        omega
      · linarith
    have h3 : |x/2 - (k:ℚ)| = 1/2 := by rw [h1]; exact heq2
    have hcase2 : x/2 - (k:ℚ) = 1/2 ∨ x/2 - (k:ℚ) = -(1/2) := (abs_eq (by norm_num)).mp h3
    have hkr : (k:ℚ) < (r:ℚ) := by
      rcases hcase2 with hc | hc
      · linarith
      · exfalso
        apply hk
        have hcc : (k:ℚ) = (r:ℚ) := by linarith
        exact_mod_cast hcc
    linarith

/-- C2: the Control Router's normalization of a raw reading is exactly the
specification's `round_to_nearest_even_step(raw / 4095 * 100, step=2)`: the
result is a multiple of 2, no other multiple of 2 is closer to the scaled
value, and an exact tie is broken away from zero (upward on this nonnegative
domain). -/
theorem C2_normalization (raw : ℕ) :
    round_to_2 (raw : ℚ) = quantizeStep2 (specRawPercent raw) ∧
    (∃ k : ℤ, round_to_2 (raw : ℚ) = 2 * k) ∧
    (∀ k : ℤ, |specRawPercent raw - round_to_2 (raw : ℚ)| ≤ |specRawPercent raw - 2 * k|) ∧
    (∀ k : ℤ, |specRawPercent raw - 2 * k| = |specRawPercent raw - round_to_2 (raw : ℚ)| →
      round_to_2 (raw : ℚ) = 2 * k ∨ (2 * k : ℚ) < round_to_2 (raw : ℚ)) := by
  have h0 : (0:ℚ) ≤ specRawPercent raw := by unfold specRawPercent; positivity
  have he : round_to_2 (raw : ℚ) = quantizeStep2 (specRawPercent raw) := rfl
  refine ⟨he, ?_, ?_, ?_⟩
  · rw [he]; exact quantizeStep2_mul _
  · intro k
    rw [he]
    exact quantizeStep2_nearest h0 k
  · intro k hk
    rw [he] at hk ⊢
    exact quantizeStep2_tie h0 k hk

/-- Witness for C2 at raw = 4095 (full scale): the tie-break disjunction
holds at the multiple 2·50 = 100. -/
theorem C2_normalization_witness :
    round_to_2 ((4095 : ℕ) : ℚ) = 2 * ((50:ℤ) : ℚ) ∨
      (2 * ((50:ℤ) : ℚ)) < round_to_2 ((4095 : ℕ) : ℚ) :=
  (C2_normalization 4095).2.2.2 50
    (by rw [specRawPercent_4095, round_to_2_cast4095]; norm_num)

/-- C7: quantization is idempotent, its output is always a multiple of 2,
and the normalization round-trips exactly at the domain endpoints
(raw 0 ↦ 0, raw 4095 ↦ 100). -/
theorem C7_quantization_algebra :
    (∀ x : ℚ, quantizeStep2 (quantizeStep2 x) = quantizeStep2 x) ∧
    (∀ x : ℚ, ∃ k : ℤ, quantizeStep2 x = 2 * k) ∧
    toPercentage 0 = 0 ∧ toPercentage 4095 = 100 :=
  ⟨quantizeStep2_idem, quantizeStep2_mul, toPercentage_0, toPercentage_4095⟩

/-- C9 counterexample: raw = 4096 is above full scale, yet `to_percentages`
yields exactly 100, not a value strictly greater than 100 — the claim's
"for any raw reading greater than 4095 the percentage is strictly greater
than 100" fails. -/
theorem C9_counterexample :
    4095 < 4096 ∧ toPercentage 4096 = 100 ∧ ¬ (100 < toPercentage 4096) :=
  ⟨by norm_num, toPercentage_4096, by rw [toPercentage_4096]; exact lt_irrefl _⟩

/-- C9 amended: the normalization applies no upper clamp, but strict excess
over 100 starts at raw = 4136 (readings 4096–4135 still quantize to exactly
100); on the full `u16` domain the percentage is bounded by 1600, and the
router forwards the out-of-range percentage unmodified as a master-volume
call. -/
theorem C9_no_upper_clamp (raw : ℕ) (h1 : 4136 ≤ raw) (h2 : raw ≤ 65535) :
    100 < toPercentage raw ∧ toPercentage raw ≤ 1600 ∧
    routerCalls [⟨1, true, none, none⟩] ⟨raw, 0, 0⟩ =
      [BackendCall.setMasterVolume (toPercentage raw)] := by
  have hn1 : 100 < natPercent raw := by unfold natPercent; omega
  have hn2 : natPercent raw ≤ 1600 := by unfold natPercent; omega
  refine ⟨?_, ?_, rfl⟩
  · rw [toPercentage_eq_natPercent]
    exact_mod_cast hn1
  · rw [toPercentage_eq_natPercent]
    exact_mod_cast hn2

/-- Witness for C9 amended at the `u16` maximum 65535 (percentage 1600). -/
theorem C9_no_upper_clamp_witness :
    100 < toPercentage 65535 ∧ toPercentage 65535 ≤ 1600 ∧
    routerCalls [⟨1, true, none, none⟩] ⟨65535, 0, 0⟩ =
      [BackendCall.setMasterVolume (toPercentage 65535)] :=
  C9_no_upper_clamp 65535 (by decide) (by decide)

/-- C4: per-sample routing — an unmapped channel issues no backend call, a
master mapping issues exactly the master-volume call with the quantized
percentage, a process mapping issues exactly the per-application call; the
emitted call sequence never depends on the backend's outcomes (failures stop
neither later channels nor later samples); and the spec scenario holds:
channel 1 master + channel 2 ↦ pid 77, sample (4095, 0, 0) gives
`set_master_volume(100)` then `set_app_volume(77, 0)` and nothing for the
unmapped channel 3. -/
theorem C4_router (mappings : List ChannelMapping) (d : PotentiometerData)
    (backend backend2 : BackendCall → Bool) :
    ((runRouter backend mappings d).map Prod.fst = routerCalls mappings d) ∧
    (∀ ds : List PotentiometerData,
      (runRouterAll backend mappings ds).map Prod.fst =
        (runRouterAll backend2 mappings ds).map Prod.fst) ∧
    (∀ idx v, mappings.find? (fun m => m.channel_id == idx + 1) = none →
      routeChannel mappings idx v = []) ∧
    (∀ idx v m, mappings.find? (fun m2 => m2.channel_id == idx + 1) = some m →
      m.is_master = true → routeChannel mappings idx v = [BackendCall.setMasterVolume v]) ∧
    (∀ idx v m pid, mappings.find? (fun m2 => m2.channel_id == idx + 1) = some m →
      m.is_master = false → m.process_id = some pid →
      routeChannel mappings idx v = [BackendCall.setAppVolume pid v]) ∧
    routerCalls [⟨1, true, none, none⟩, ⟨2, false, some 77, some "app"⟩] ⟨4095, 0, 0⟩ =
      [BackendCall.setMasterVolume 100, BackendCall.setAppVolume 77 0] := by
  refine ⟨?_, ?_, ?_, ?_, ?_, ?_⟩
  · simp [runRouter, Function.comp_def]
  · intro ds
    simp [runRouterAll, runRouter, List.map_flatten, List.map_map, Function.comp_def]
  · intro idx v hfind
    unfold routeChannel
    rw [hfind]
  · intro idx v m hfind hmaster
    unfold routeChannel
    rw [hfind]
    simp [hmaster]
  · intro idx v m pid hfind hmaster hpid
    unfold routeChannel
    rw [hfind]
    simp [hmaster, hpid]
  · show [BackendCall.setMasterVolume (toPercentage 4095),
          BackendCall.setAppVolume 77 (toPercentage 0)] = _
    rw [toPercentage_4095, toPercentage_0]

/-- Witness for C4: the master clause applied at the concrete scenario
mapping list, channel index 0. -/
theorem C4_router_witness :
    routeChannel [⟨1, true, none, none⟩] 0 (100 : ℚ) = [BackendCall.setMasterVolume 100] :=
  (C4_router [⟨1, true, none, none⟩] ⟨0, 0, 0⟩ (fun _ => true) (fun _ => false)).2.2.2.1
    0 100 ⟨1, true, none, none⟩ rfl rfl

/-- C3: the store invariant (unique channel id, master mappings target no
process) is preserved by `save_channel_mapping` and `clear_channel_mapping`;
after a set, the table contains exactly the last-written mapping for that
channel id. -/
theorem C3_store_invariant (s : List ChannelMapping) (m : ChannelMapping) (cid : ℕ)
    (hs : storeInv s) (hm : wfMapping m) :
    storeInv (setMapping s m) ∧ storeInv (clearMapping s cid) ∧
    (setMapping s m).filter (fun x => x.channel_id == m.channel_id) = [m] ∧
    m ∈ setMapping s m := by
  obtain ⟨hnd, hwf⟩ := hs
  refine ⟨⟨?_, ?_⟩, ⟨?_, ?_⟩, ?_, ?_⟩
  · -- nodup after set
    unfold setMapping
    rw [List.map_append, List.nodup_append]
    refine ⟨?_, by simp, ?_⟩
    · exact ((List.filter_sublist s).map _).nodup hnd
    · intro a ha
      simp only [List.mem_map, List.mem_filter] at ha
      obtain ⟨x, ⟨_, hx⟩, rfl⟩ := ha
      simp only [Bool.not_eq_true', beq_eq_false_iff_ne] at hx
      simp [hx]
  · intro x hx
    unfold setMapping at hx
    rcases List.mem_append.mp hx with h | h
    · exact hwf x (List.mem_of_mem_filter h)
    · rw [List.mem_singleton.mp h]
      exact hm
  · exact ((List.filter_sublist s).map _).nodup hnd
  · intro x hx
    exact hwf x (List.mem_of_mem_filter hx)
  · unfold setMapping
    rw [List.filter_append, List.filter_filter]
    simp
  · unfold setMapping
    simp

/-- Witness for C3 on the empty store and a well-formed master mapping. -/
theorem C3_store_invariant_witness :
    storeInv (setMapping [] ⟨1, true, none, none⟩) ∧
    storeInv (clearMapping [] 2) ∧
    (setMapping [] ⟨1, true, none, none⟩).filter
        (fun x => x.channel_id == (1 : ℕ)) = [⟨1, true, none, none⟩] ∧
    (⟨1, true, none, none⟩ : ChannelMapping) ∈ setMapping [] ⟨1, true, none, none⟩ :=
  C3_store_invariant [] ⟨1, true, none, none⟩ 2 (by simp [storeInv]) (fun _ => rfl)

/-- C6: `save_channel_mapping` persists the full resulting table via the
configuration collaborator and surfaces its result to the caller; when
persistence fails the error is returned while the in-memory table still holds
the new mapping (no rollback), the in-memory outcome being independent of
the persistence verdict. -/
theorem C6_persist (s : List ChannelMapping) (m : ChannelMapping)
    (persist : List ChannelMapping → Except String Unit) :
    (save_channel_mapping s m persist).1 = setMapping s m ∧
    (save_channel_mapping s m persist).2 = persist (setMapping s m) ∧
    m ∈ (save_channel_mapping s m persist).1 ∧
    (∀ e, persist (setMapping s m) = Except.error e →
      (save_channel_mapping s m persist).2 = Except.error e ∧
      m ∈ (save_channel_mapping s m persist).1) ∧
    (∀ persist2, (save_channel_mapping s m persist).1 = (save_channel_mapping s m persist2).1) := by
  refine ⟨rfl, rfl, ?_, ?_, fun _ => rfl⟩
  · simp [save_channel_mapping, setMapping]
  · intro e he
    exact ⟨he, by simp [save_channel_mapping, setMapping]⟩

/-- Witness for C6 with a failing persistence collaborator. -/
theorem C6_persist_witness :
    (save_channel_mapping [] ⟨2, false, some 77, some "app"⟩
        (fun _ => Except.error "disk full")).2 = Except.error "disk full" ∧
    (⟨2, false, some 77, some "app"⟩ : ChannelMapping) ∈
      (save_channel_mapping [] ⟨2, false, some 77, some "app"⟩
        (fun _ => Except.error "disk full")).1 :=
  (C6_persist [] ⟨2, false, some 77, some "app"⟩ (fun _ => Except.error "disk full")).2.2.2.1
    "disk full" rfl

/-- C8: when no port is supplied and discovery fails, `connect` returns the
non-fatal `connected:false / error:"No Pico device found"` status, the link
state is fully cleared (no handle, no recorded name), and `connect_serial`
spawns no reader. -/
theorem C8_connect_not_found (st : SerialState) (ports : List AvailablePort)
    (openPort : String → Except String Unit) (h : find_pico_port ports = none) :
    connectFn ports openPort st none =
      (⟨none, none⟩, ⟨false, none, some "No Pico device found"⟩) ∧
    (connect_serial st ports openPort none).2.2 = false := by
  have h1 : connectFn ports openPort st none =
      (⟨none, none⟩, ⟨false, none, some "No Pico device found"⟩) := by
    simp [connectFn, disconnectFn, h]
  refine ⟨h1, ?_⟩
  simp [connect_serial, h1]

/-- Witness for C8: empty port list, starting from a connected state. -/
theorem C8_connect_not_found_witness :
    connectFn [] (fun _ => Except.ok ()) ⟨some "COM3", some "COM3"⟩ none =
      (⟨none, none⟩, ⟨false, none, some "No Pico device found"⟩) ∧
    (connect_serial ⟨some "COM3", some "COM3"⟩ [] (fun _ => Except.ok ()) none).2.2 = false :=
  C8_connect_not_found ⟨some "COM3", some "COM3"⟩ [] (fun _ => Except.ok ()) rfl

/-- C10: after any sequence of connect/disconnect commands `get_status`
reports `error = none` unconditionally, `connected` exactly when a handle is
held, and the recorded name; a failed connect's cause lives only in that
call's return value — the subsequent status of the resulting state is the
plain cleared snapshot. -/
theorem C10_status (st : SerialState) (ops : List LinkOp) (pn : Option String)
    (ports : List AvailablePort) (openPort : String → Except String Unit) :
    (get_status (ops.foldl applyOp st)).error = none ∧
    (get_status (ops.foldl applyOp st)).connected = (ops.foldl applyOp st).port.isSome ∧
    (get_status (ops.foldl applyOp st)).port = (ops.foldl applyOp st).port_name ∧
    ((connectFn ports openPort st pn).2.connected = false →
      get_status (connectFn ports openPort st pn).1 = ⟨false, none, none⟩) := by
  refine ⟨rfl, rfl, rfl, ?_⟩
  intro h
  unfold connectFn disconnectFn at h ⊢
  rcases hp : (match pn with | some p => some p | none => find_pico_port ports) with _ | p
  · simp only [hp] at h ⊢
    rfl
  · simp only [hp] at h ⊢
    rcases ho : openPort p with e | u
    · simp only [ho] at h ⊢
      rfl
    · simp only [ho] at h ⊢
      simp at h

/-- Witness for C10 with one failing connect attempt. -/
theorem C10_status_witness :
    (get_status (List.foldl applyOp ⟨none, none⟩
      [LinkOp.connectOp (some "COM7") [] (fun _ => Except.error "busy")])).error = none ∧
    get_status (connectFn [] (fun _ => Except.error "busy") ⟨none, none⟩ (some "COM7")).1 =
      ⟨false, none, none⟩ :=
  ⟨(C10_status ⟨none, none⟩ [LinkOp.connectOp (some "COM7") [] (fun _ => Except.error "busy")]
      (some "COM7") [] (fun _ => Except.error "busy")).1,
   (C10_status ⟨none, none⟩ [] (some "COM7") [] (fun _ => Except.error "busy")).2.2.2 rfl⟩

theorem digitChar_isDigit (d : ℕ) (h : d < 10) :
    isDigitChar (Nat.digitChar d) = true ∧ digitVal (Nat.digitChar d) = d := by
  interval_cases d <;> exact ⟨rfl, rfl⟩

theorem digitChar_ne_zero {d : ℕ} (h0 : 0 < d) (h : d < 10) : Nat.digitChar d ≠ '0' := by
  interval_cases d <;> decide

theorem renderNatAux_digits (n : ℕ) : ∀ c ∈ renderNatAux n, isDigitChar c = true := by
  induction n using Nat.strong_induction_on with
  | _ n ih =>
    match n with
    | 0 => simp [renderNatAux]
    | m+1 =>
      rw [renderNatAux]
      intro c hc
      rcases List.mem_cons.mp hc with rfl | hc
      · exact (digitChar_isDigit _ (Nat.mod_lt _ (by norm_num))).1
      · exact ih ((m+1)/10) (Nat.div_lt_self (Nat.succ_pos m) (by norm_num)) c hc

theorem renderNat_digits (n : ℕ) : ∀ c ∈ renderNat n, isDigitChar c = true := by
  unfold renderNat
  split
  · intro c hc
    rw [List.mem_singleton.mp hc]
    rfl
  · intro c hc
    exact renderNatAux_digits n c (List.mem_reverse.mp hc)

theorem renderNatAux_foldl (n : ℕ) (hn : 0 < n) : ∀ acc : ℕ,
    ((renderNatAux n).reverse).foldl (fun a c => 10 * a + digitVal c) acc =
      acc * 10 ^ (renderNatAux n).length + n := by
  induction n using Nat.strong_induction_on with
  | _ n ih =>
    match n, hn with
    | m+1, _ =>
      intro acc
      rw [renderNatAux, List.reverse_cons, List.foldl_append]
      by_cases h10 : (m+1)/10 = 0
      · have hm : renderNatAux ((m+1)/10) = [] := by rw [h10, renderNatAux]
        have hlt : m + 1 < 10 := by omega
        simp only [hm, List.reverse_nil, List.foldl_nil, List.foldl_cons,
          List.length_cons, List.length_nil]
        have hd := (digitChar_isDigit ((m+1) % 10) (Nat.mod_lt _ (by norm_num))).2
        rw [hd, Nat.mod_eq_of_lt hlt]
        ring
      · have hpos : 0 < (m+1)/10 := Nat.pos_of_ne_zero h10
        have hrec := ih ((m+1)/10) (Nat.div_lt_self (Nat.succ_pos m) (by norm_num)) hpos acc
        rw [hrec]
        simp only [List.foldl_cons, List.foldl_nil, List.length_cons]
        have hd := (digitChar_isDigit ((m+1) % 10) (Nat.mod_lt _ (by norm_num))).2
        rw [hd]
        have hdm := Nat.div_add_mod (m+1) 10
        rw [pow_succ]
        ring_nf
        omega

theorem natOfDigits_renderNat (n : ℕ) : natOfDigits (renderNat n) = n := by
  unfold renderNat natOfDigits
  split
  · subst n
    rfl
  · have hpos : 0 < n := Nat.pos_of_ne_zero (by assumption)
    rw [renderNatAux_foldl n hpos 0]
    ring

theorem renderNat_ne_nil (n : ℕ) : renderNat n ≠ [] := by
  unfold renderNat
  split
  · simp
  · have hpos : 0 < n := Nat.pos_of_ne_zero (by assumption)
    match n, hpos with
    | m+1, _ =>
      rw [renderNatAux]
      simp

theorem renderNatAux_reverse_head (n : ℕ) (hn : 0 < n) :
    ∃ d ds', (renderNatAux n).reverse = Nat.digitChar d :: ds' ∧ 0 < d ∧ d < 10 := by
  induction n using Nat.strong_induction_on with
  | _ n ih =>
    match n, hn with
    | m+1, _ =>
      rw [renderNatAux, List.reverse_cons]
      by_cases h10 : (m+1)/10 = 0
      · have hm : renderNatAux ((m+1)/10) = [] := by rw [h10, renderNatAux]
        refine ⟨(m+1) % 10, [], ?_, ?_, Nat.mod_lt _ (by norm_num)⟩
        · rw [hm]
          rfl
        · have hlt : m + 1 < 10 := by omega
          rw [Nat.mod_eq_of_lt hlt]
          omega
      · have hpos : 0 < (m+1)/10 := Nat.pos_of_ne_zero h10
        obtain ⟨d, ds', hds, hd0, hd10⟩ :=
          ih ((m+1)/10) (Nat.div_lt_self (Nat.succ_pos m) (by norm_num)) hpos
        exact ⟨d, ds' ++ [Nat.digitChar ((m+1) % 10)], by rw [hds]; rfl, hd0, hd10⟩

theorem renderNat_leadingZero (n : ℕ) : leadingZero (renderNat n) = false := by
  unfold renderNat
  split
  · rfl
  · have hpos : 0 < n := Nat.pos_of_ne_zero (by assumption)
    obtain ⟨d2, ds', hds2, hd0, hd10⟩ := renderNatAux_reverse_head n hpos
    rw [hds2]
    unfold leadingZero
    have hb : (Nat.digitChar d2 == '0') = false := by
      simpa using digitChar_ne_zero hd0 hd10
    simp [hb]

theorem span_digits_append {l r : List Char} (hl : ∀ c ∈ l, isDigitChar c = true)
    (hr : ∀ c, r.head? = some c → isDigitChar c = false) :
    (l ++ r).takeWhile isDigitChar = l ∧ (l ++ r).dropWhile isDigitChar = r := by
  induction l with
  | nil =>
    simp only [List.nil_append]
    cases r with
    | nil => exact ⟨rfl, rfl⟩
    | cons c t =>
      have hc := hr c rfl
      rw [List.takeWhile_cons, List.dropWhile_cons, hc]
      exact ⟨rfl, rfl⟩
  | cons a l' ihl =>
    have ha : isDigitChar a = true := hl a (List.mem_cons_self a l')
    have ih := ihl (fun c hc => hl c (List.mem_cons_of_mem a hc))
    rw [List.cons_append, List.takeWhile_cons, List.dropWhile_cons, ha]
    simp only [if_true]
    exact ⟨by rw [ih.1], by rw [ih.2]⟩

theorem not_digit_comma : isDigitChar ',' = false := rfl

theorem not_digit_rbrace : isDigitChar '\x7d' = false := rfl

theorem parseU16_render (n : ℕ) (hn : n ≤ 65535) (r : List Char)
    (hr : r.head? = some ',' ∨ r.head? = some '\x7d') :
    parseU16 (renderNat n ++ r) = some (n, r) := by
  have hrd : ∀ c, r.head? = some c → isDigitChar c = false := by
    intro c hc
    rcases hr with h | h <;> rw [h] at hc <;> cases hc <;> rfl
  obtain ⟨htake, hdrop⟩ := span_digits_append (renderNat_digits n) hrd
  have hne : (renderNat n).isEmpty = false := by
    cases hcs : renderNat n with
    | nil => exact absurd hcs (renderNat_ne_nil n)
    | cons d ds => rfl
  have hnum : numberContinues r = false := by
    rcases hr with h | h <;>
      (cases r with
       | nil => rfl
       | cons c t => cases h; rfl)
  simp only [parseU16]
  rw [htake, hdrop, hne, renderNat_leadingZero, hnum, natOfDigits_renderNat]
  simp [hn]

theorem spanKey_pot1 (r : List Char) :
    spanKey ('p' :: 'o' :: 't' :: '1' :: '"' :: r) = some (['p', 'o', 't', '1'], r) := rfl

theorem spanKey_pot2 (r : List Char) :
    spanKey ('p' :: 'o' :: 't' :: '2' :: '"' :: r) = some (['p', 'o', 't', '2'], r) := rfl

theorem spanKey_pot3 (r : List Char) :
    spanKey ('p' :: 'o' :: 't' :: '3' :: '"' :: r) = some (['p', 'o', 't', '3'], r) := rfl

theorem jsonWs_of_digit {c : Char} (h : isDigitChar c = true) : jsonWs c = false := by
  unfold isDigitChar at h
  rw [Bool.and_eq_true, decide_eq_true_eq, decide_eq_true_eq] at h
  obtain ⟨h1, h2⟩ := h
  unfold jsonWs
  have e1 : (c == ' ') = false := by
    refine beq_eq_false_iff_ne.mpr (fun hc => ?_)
    subst hc; exact absurd h1 (by decide)
  have e2 : (c == '\t') = false := by
    refine beq_eq_false_iff_ne.mpr (fun hc => ?_)
    subst hc; exact absurd h1 (by decide)
  have e3 : (c == '\n') = false := by
    refine beq_eq_false_iff_ne.mpr (fun hc => ?_)
    subst hc; exact absurd h1 (by decide)
  have e4 : (c == '\r') = false := by
    refine beq_eq_false_iff_ne.mpr (fun hc => ?_)
    subst hc; exact absurd h1 (by decide)
  simp [e1, e2, e3, e4]

theorem skipWs_renderNat_append (n : ℕ) (r : List Char) :
    skipWs (renderNat n ++ r) = renderNat n ++ r := by
  obtain ⟨d, ds, hds⟩ : ∃ d ds, renderNat n = d :: ds := by
    cases hcs : renderNat n with
    | nil => exact absurd hcs (renderNat_ne_nil n)
    | cons d ds => exact ⟨d, ds, rfl⟩
  have hd : isDigitChar d = true := renderNat_digits n d (by rw [hds]; exact List.mem_cons_self _ _)
  rw [hds, List.cons_append]
  unfold skipWs
  rw [jsonWs_of_digit hd]
  simp

theorem parseMember_pot1 (a : ℕ) (ha : a ≤ 65535) (r : List Char)
    (hr : r.head? = some ',' ∨ r.head? = some '\x7d') (b3 c3 : Option ℕ) :
    parseMember ('"' :: 'p' :: 'o' :: 't' :: '1' :: '"' :: ':' :: (renderNat a ++ r))
      (none, b3, c3) = some ((some a, b3, c3), r) := by
  simp only [parseMember, spanKey_pot1]
  norm_num
  rw [show skipWs (':' :: (renderNat a ++ r)) = ':' :: (renderNat a ++ r) from rfl]
  simp only [skipWs_renderNat_append, parseU16_render a ha r hr]

theorem parseMember_pot2 (b : ℕ) (hb : b ≤ 65535) (r : List Char)
    (hr : r.head? = some ',' ∨ r.head? = some '\x7d') (a3 c3 : Option ℕ) :
    parseMember ('"' :: 'p' :: 'o' :: 't' :: '2' :: '"' :: ':' :: (renderNat b ++ r))
      (a3, none, c3) = some ((a3, some b, c3), r) := by
  simp only [parseMember, spanKey_pot2]
  norm_num
  rw [show skipWs (':' :: (renderNat b ++ r)) = ':' :: (renderNat b ++ r) from rfl]
  simp only [skipWs_renderNat_append, parseU16_render b hb r hr]
  rw [if_neg (show ¬('2' = '1') by decide)]

theorem parseMember_pot3 (c : ℕ) (hc : c ≤ 65535) (r : List Char)
    (hr : r.head? = some ',' ∨ r.head? = some '\x7d') (a3 b3 : Option ℕ) :
    parseMember ('"' :: 'p' :: 'o' :: 't' :: '3' :: '"' :: ':' :: (renderNat c ++ r))
      (a3, b3, none) = some ((a3, b3, some c), r) := by
  simp only [parseMember, spanKey_pot3]
  norm_num
  rw [show skipWs (':' :: (renderNat c ++ r)) = ':' :: (renderNat c ++ r) from rfl]
  simp only [skipWs_renderNat_append, parseU16_render c hc r hr]
  rw [if_neg (show ¬('3' = '1') by decide), if_neg (show ¬('3' = '2') by decide)]

theorem parseMembers_step_comma (fu : ℕ) (cs : List Char)
    (abc abc2 : Option ℕ × Option ℕ × Option ℕ) (rest r2 : List Char)
    (h : parseMember cs abc = some (abc2, rest)) (h2 : skipWs rest = ',' :: r2) :
    parseMembers (fu+1) cs abc = parseMembers fu (skipWs r2) abc2 := by
  simp only [parseMembers, h, h2]

theorem parseMembers_step_done (fu : ℕ) (cs : List Char)
    (abc abc2 : Option ℕ × Option ℕ × Option ℕ) (rest r2 : List Char)
    (h : parseMember cs abc = some (abc2, rest)) (h2 : skipWs rest = '\x7d' :: r2) :
    parseMembers (fu+1) cs abc = some (abc2, r2) := by
  simp only [parseMembers, h, h2]

theorem parseMembers_render (f : ℕ) (a b c : ℕ)
    (ha : a ≤ 65535) (hb : b ≤ 65535) (hc : c ≤ 65535) :
    parseMembers (f+3) (renderMembersBody a b c) (none, none, none) =
      some ((some a, some b, some c), []) := by
  have hm1 := parseMember_pot1 a ha
    (',' :: '"' :: 'p' :: 'o' :: 't' :: '2' :: '"' :: ':' ::
      (renderNat b ++ ',' :: '"' :: 'p' :: 'o' :: 't' :: '3' :: '"' :: ':' ::
        (renderNat c ++ ['\x7d']))) (Or.inl rfl) none none
  have hm2 := parseMember_pot2 b hb
    (',' :: '"' :: 'p' :: 'o' :: 't' :: '3' :: '"' :: ':' ::
      (renderNat c ++ ['\x7d'])) (Or.inl rfl) (some a) none
  have hm3 := parseMember_pot3 c hc ['\x7d'] (Or.inr rfl) (some a) (some b)
  rw [show f+3 = (f+2)+1 from rfl]
  unfold renderMembersBody
  rw [parseMembers_step_comma (f+2) _ _ _ _ _ hm1 rfl]
  rw [show skipWs ('"' :: 'p' :: 'o' :: 't' :: '2' :: '"' :: ':' ::
      (renderNat b ++ ',' :: '"' :: 'p' :: 'o' :: 't' :: '3' :: '"' :: ':' ::
        (renderNat c ++ ['\x7d']))) =
    '"' :: 'p' :: 'o' :: 't' :: '2' :: '"' :: ':' ::
      (renderNat b ++ ',' :: '"' :: 'p' :: 'o' :: 't' :: '3' :: '"' :: ':' ::
        (renderNat c ++ ['\x7d'])) from rfl]
  rw [show f+2 = (f+1)+1 from rfl]
  rw [parseMembers_step_comma (f+1) _ _ _ _ _ hm2 rfl]
  rw [show skipWs ('"' :: 'p' :: 'o' :: 't' :: '3' :: '"' :: ':' ::
      (renderNat c ++ ['\x7d'])) =
    '"' :: 'p' :: 'o' :: 't' :: '3' :: '"' :: ':' ::
      (renderNat c ++ ['\x7d']) from rfl]
  rw [show f+1 = f+1 from rfl]
  exact parseMembers_step_done f _ _ _ _ _ hm3 rfl

theorem renderLine_length (a b c : ℕ) : 2 ≤ (renderLine a b c).length := by
  simp [renderLine, renderMembersBody]

theorem decodeLine_render (a b c : ℕ) (ha : a ≤ 65535) (hb : b ≤ 65535) (hc : c ≤ 65535) :
    decodeLine (renderLine a b c) = some ⟨a, b, c⟩ := by
  have h0 : decodeLine (renderLine a b c) =
      decodeTriple (parseMembers ((renderLine a b c).length + 1)
        (renderMembersBody a b c) (none, none, none)) := rfl
  have hlen : (renderLine a b c).length + 1 = ((renderLine a b c).length - 2) + 3 := by
    have h2 := renderLine_length a b c
    omega
  rw [h0, hlen, parseMembers_render _ a b c ha hb hc]
  rfl

theorem newline_not_in_renderNat (n : ℕ) : '\n' ∉ renderNat n := by
  intro h
  exact absurd (renderNat_digits n '\n' h) (by decide)

theorem newline_not_in_renderLine (a b c : ℕ) : '\n' ∉ renderLine a b c := by
  intro h
  simp only [renderLine, renderMembersBody, List.mem_cons, List.mem_append,
    List.mem_singleton] at h
  simp at h
  rcases h with h | h | h
  · exact newline_not_in_renderNat a h
  · exact newline_not_in_renderNat b h
  · exact newline_not_in_renderNat c h

theorem splitLines_append (l : List Char) (hl : '\n' ∉ l) (r : List Char) :
    splitLines (l ++ '\n' :: r) = (l :: (splitLines r).1, (splitLines r).2) := by
  induction l with
  | nil =>
    simp only [List.nil_append]
    rw [splitLines]
    simp
  | cons c t ih =>
    have hcn : c ≠ '\n' := fun hc => hl (by rw [← hc]; exact List.mem_cons_self c t)
    have hb : (c == '\n') = false := beq_eq_false_iff_ne.mpr hcn
    have hl2 : '\n' ∉ t := fun h => hl (List.mem_cons_of_mem c h)
    rw [List.cons_append, splitLines, hb]
    rw [ih hl2]
    rfl

theorem extractSamples_stream (a b c : ℕ)
    (ha : a ≤ 65535) (hb : b ≤ 65535) (hc : c ≤ 65535)
    (bad leftover : List Char) (hbad : decodeLine bad = none) (hnl : '\n' ∉ bad) :
    extractSamples (renderLine a b c ++ '\n' ::
        (bad ++ '\n' :: (renderLine a b c ++ '\n' :: leftover))) =
      (⟨a, b, c⟩ :: ⟨a, b, c⟩ :: (extractSamples leftover).1, (extractSamples leftover).2) := by
  unfold extractSamples
  rw [splitLines_append _ (newline_not_in_renderLine a b c),
    splitLines_append _ hnl,
    splitLines_append _ (newline_not_in_renderLine a b c)]
  simp [List.filterMap_cons, decodeLine_render a b c ha hb hc, hbad]

/-- C5 counterexample: a line with an extra unknown field is not "the exact
shape of three fields", yet serde's default unknown-field tolerance accepts
it — decode succeeds instead of returning the decode error the claim
requires. -/
theorem C5_counterexample :
    decodeLine ("\x7b\"pot1\":1,\"pot2\":2,\"pot3\":3,\"junk\":0\x7d".data) = some ⟨1, 2, 3⟩ ∧
    decodeLine ("\x7b\"pot1\":1,\"pot2\":2,\"pot3\":3,\"junk\":0\x7d".data) ≠ none := by
  exact ⟨rfl, by decide⟩

/-- C5 amended: every canonical three-field line decodes to the sample with
identical field values; a line with a missing field, a non-numeric value, or
trailing garbage yields a decode error (all-or-nothing, no partial sample);
and a malformed line in the stream is dropped while both surrounding lines
still produce their samples — rejection never aborts the reading stream. -/
theorem C5_decode (a b c : ℕ) (ha : a ≤ 65535) (hb : b ≤ 65535) (hc : c ≤ 65535) :
    decodeLine (renderLine a b c) = some ⟨a, b, c⟩ ∧
    decodeLine ("\x7b\"pot1\":1,\"pot2\":2\x7d".data) = none ∧
    decodeLine ("\x7b\"pot1\":abc,\"pot2\":2,\"pot3\":3\x7d".data) = none ∧
    decodeLine ("\x7b\"pot1\":1,\"pot2\":2,\"pot3\":3\x7d trailing".data) = none ∧
    (∀ (bad leftover : List Char), decodeLine bad = none → '\n' ∉ bad →
      extractSamples (renderLine a b c ++ '\n' ::
          (bad ++ '\n' :: (renderLine a b c ++ '\n' :: leftover))) =
        (⟨a, b, c⟩ :: ⟨a, b, c⟩ :: (extractSamples leftover).1, (extractSamples leftover).2)) :=
  ⟨decodeLine_render a b c ha hb hc, rfl, rfl, rfl,
   fun bad leftover hbad hnl => extractSamples_stream a b c ha hb hc bad leftover hbad hnl⟩

/-- Witness for C5 amended at the sample (1, 2, 3) with a malformed middle
line. -/
theorem C5_decode_witness :
    decodeLine (renderLine 1 2 3) = some ⟨1, 2, 3⟩ ∧
    extractSamples (renderLine 1 2 3 ++ '\n' ::
        ("garbage".data ++ '\n' :: (renderLine 1 2 3 ++ '\n' :: []))) =
      (⟨1, 2, 3⟩ :: ⟨1, 2, 3⟩ :: (extractSamples []).1, (extractSamples []).2) :=
  ⟨(C5_decode 1 2 3 (by decide) (by decide) (by decide)).1,
   (C5_decode 1 2 3 (by decide) (by decide) (by decide)).2.2.2.2 "garbage".data []
     (by rfl) (by decide)⟩

/-- C1 counterexample: the stored snapshot and the fetched list hold the same
sessions in a different order — equal under value-level, order-independent
comparison — yet the tick emits a notification and replaces the snapshot,
because the code compares with order-sensitive `Vec` equality. -/
theorem C1_counterexample :
    (([⟨20, "spotify", "Spotify", 75, false⟩, ⟨10, "chrome", "Chrome", 50, false⟩] :
        List AudioSession).Perm
      [⟨10, "chrome", "Chrome", 50, false⟩, ⟨20, "spotify", "Spotify", 75, false⟩]) ∧
    reconcilerTick [⟨10, "chrome", "Chrome", 50, false⟩, ⟨20, "spotify", "Spotify", 75, false⟩]
      (Except.ok [⟨20, "spotify", "Spotify", 75, false⟩, ⟨10, "chrome", "Chrome", 50, false⟩]) =
      ([⟨20, "spotify", "Spotify", 75, false⟩, ⟨10, "chrome", "Chrome", 50, false⟩],
       [[⟨20, "spotify", "Spotify", 75, false⟩, ⟨10, "chrome", "Chrome", 50, false⟩]]) := by
  constructor
  · decide
  · decide

/-- C1 amended: each tick with a successful fetch compares the fetched list
to the snapshot with order-sensitive structural `Vec` equality; an equal list
emits nothing and leaves the snapshot, a differing list (including a mere
permutation) replaces the snapshot and emits exactly one notification
carrying the new list; a failed fetch retains the snapshot and emits
nothing. -/
theorem C1_reconciler (last cur : List AudioSession) (e : String) :
    reconcilerTick last (Except.error e) = (last, []) ∧
    (last = cur → reconcilerTick last (Except.ok cur) = (last, [])) ∧
    (last ≠ cur → reconcilerTick last (Except.ok cur) = (cur, [cur]) ∧
      (reconcilerTick last (Except.ok cur)).2.length = 1) := by
  refine ⟨rfl, ?_, ?_⟩
  · intro h
    simp [reconcilerTick, h]
  · intro h
    simp [reconcilerTick, h]

/-- Witness for C1 amended: a changed singleton list triggers exactly one
notification. -/
theorem C1_reconciler_witness :
    reconcilerTick [] (Except.ok [⟨10, "chrome", "Chrome", 50, false⟩]) =
      ([⟨10, "chrome", "Chrome", 50, false⟩], [[⟨10, "chrome", "Chrome", 50, false⟩]]) ∧
    (reconcilerTick [] (Except.ok [⟨10, "chrome", "Chrome", 50, false⟩])).2.length = 1 :=
  (C1_reconciler [] [⟨10, "chrome", "Chrome", 50, false⟩] "backend down").2.2 (by decide)
